import Mathlib

/-!
Verification of the download orchestration engine of `src/main.py`:
the per-book download transaction `download_book` and the job-set
resolver inside `main`.  Remote calls and artifact writers are external
collaborators; they are modelled at their interface boundary (each
remote step either writes its artifact into the target directory or
raises, as selected by an explicit failure oracle), and the filesystem
is modelled as the slice of the tree under the library root.
-/

namespace Blinkist

/-- A work item ("book"): one downloadable unit as produced by the
discovery calls.  Chapters are modelled by their identifiers. -/
structure Book where
  slug : String
  title : String
  language : String
  is_audio : Bool
  chapters : List Nat
deriving DecidableEq

/-- One artifact file written into a book directory by the artifact
writers (download_raw_yaml, download_text_md, Chapter.download_audio,
download_cover). -/
inductive Artifact where
  | yamlFile
  | textFile
  | audioFile (chapter : Nat)
  | coverFile
deriving DecidableEq

/-- A directory name directly under the library root.  In main.py these
are path strings: `DirName.final slug` stands for `library_dir/slug`,
and `DirName.tmp slug i` for the temp name built on lines 51-55, namely
`slug + ".tmp"` when `i = 0` and `slug + ".tmp" + toString i` when
`i > 0`. -/
inductive DirName where
  | final (slug : String)
  | tmp (slug : String) (i : Nat)
deriving DecidableEq

/-- The library-root slice of the filesystem: whether the root itself
exists, and the directories under it (in creation order) together with
the artifacts each one holds (in write order). -/
structure FS where
  rootExists : Bool
  dirs : List (DirName × List Artifact)
deriving DecidableEq

def FS.dirExists (fs : FS) (name : DirName) : Bool :=
  fs.dirs.any (fun p => p.1 = name)

def FS.contents (fs : FS) (name : DirName) : Option (List Artifact) :=
  (fs.dirs.find? (fun p => p.1 = name)).map Prod.snd

def FS.mkdir (fs : FS) (name : DirName) : FS :=
  ⟨fs.rootExists, fs.dirs ++ [(name, [])]⟩

def FS.writeArtifact (fs : FS) (name : DirName) (a : Artifact) : FS :=
  ⟨fs.rootExists, fs.dirs.map (fun p => if p.1 = name then (p.1, p.2 ++ [a]) else p)⟩

def FS.renameDir (fs : FS) (src dst : DirName) : FS :=
  ⟨fs.rootExists, fs.dirs.map (fun p => if p.1 = src then (dst, p.2) else p)⟩

/-- One remote operation attempted while staging a book (download_book
lines 58-87): the two chapter prefetches and the four artifact kinds,
audio once per chapter. -/
inductive Step where
  | chapterList
  | chaptersFetch
  | yamlStep
  | textStep
  | audioStep (chapter : Nat)
  | coverStep
deriving DecidableEq

/-- The artifact a step writes into the temp directory; the two
prefetches only populate the book's chapter cache. -/
def stepArtifact : Step → Option Artifact
  | Step.yamlStep => some Artifact.yamlFile
  | Step.textStep => some Artifact.textFile
  | Step.audioStep ch => some (Artifact.audioFile ch)
  | Step.coverStep => some Artifact.coverFile
  | _ => none

/-- The steps attempted for a book, in the fixed source order of
download_book: prefetch chapter list, prefetch chapters, raw YAML,
text, per-chapter audio (skipped entirely, with only a warning, when
the book has no audio rendition), cover. -/
def stepList (book : Book) (yaml markdown audio cover : Bool) : List Step :=
  [Step.chapterList, Step.chaptersFetch]
    ++ (if yaml then [Step.yamlStep] else [])
    ++ (if markdown then [Step.textStep] else [])
    ++ (if audio && book.is_audio then book.chapters.map Step.audioStep else [])
    ++ (if cover then [Step.coverStep] else [])

/-- What made a staging transaction fail: a raising remote step, or the
pre-rename `assert not book_dir.exists()` on line 90 firing. -/
inductive DLFailure where
  | stepFail (s : Step)
  | commitRace
deriving DecidableEq

/-- How one invocation of download_book ended.  In `failed e reraised`,
`reraised` records whether the except branch re-raised the exception
(no continue-on-error) or returned normally; `preflightFailed` is the
`assert library_dir.exists()` on line 41 failing outside the try block,
hence always propagating. -/
inductive Outcome where
  | preflightFailed
  | skipped
  | committed
  | failed (e : DLFailure) (reraised : Bool)
deriving DecidableEq

/-- Whether the outcome lets an exception propagate out of
download_book into the caller. -/
def raisesOut : Outcome → Bool
  | Outcome.preflightFailed => true
  | Outcome.failed _ r => r
  | _ => false

/-- The user-visible messages download_book emits (progress/status
display is purely observational and not modelled). -/
inductive LogEntry where
  | skipMsg (title : String)
  | errorMsg (title : String)
  | keepTmpMsg (name : DirName)
  | continueMsg
  | exitMsg
deriving DecidableEq

/-- The observable effect of one download_book invocation: the
filesystem afterwards, the outcome, how many remote calls were
attempted, the temp directory allocated (if any), and the log. -/
structure DLResult where
  fs : FS
  outcome : Outcome
  netCalls : Nat
  tmpDir : Option DirName
  log : List LogEntry
deriving DecidableEq

/-- The while loop of download_book lines 52-55, fuelled: try suffix
indices from `i` upwards until one whose temp name is unused is found.
`fs.dirs.length + 1` fuel always suffices (see `freshTmpIdx_fresh`). -/
def freshTmpIdxAux (fs : FS) (slug : String) : Nat → Nat → Nat
  | 0, i => i
  | fuel + 1, i =>
      if fs.dirExists (DirName.tmp slug i) = true then freshTmpIdxAux fs slug fuel (i + 1)
      else i

/-- The suffix index the while loop of lines 52-55 settles on: the
first index whose temp name is not already taken. -/
def freshTmpIdx (fs : FS) (slug : String) : Nat :=
  freshTmpIdxAux fs slug (fs.dirs.length + 1) 0

/-- The temp staging directory name download_book allocates for a slug
in a given library state. -/
def tmpDirName (library : FS) (slug : String) : DirName :=
  DirName.tmp slug (freshTmpIdx library slug)

/-- Effect of one successful step on the filesystem: artifact steps
write their file into the temp directory, prefetches write nothing. -/
def writeStep (tmp : DirName) (fs : FS) (s : Step) : FS :=
  match stepArtifact s with
  | some a => fs.writeArtifact tmp a
  | none => fs

/-- Run the staging steps in order against the temp directory.  Each
step is one attempted remote call; the oracle `fails` says which remote
calls raise.  Returns the filesystem afterwards, the number of calls
attempted, and the step that raised, if any (the body of the try block,
lines 59-87). -/
def runSteps (fails : Step → Bool) (tmp : DirName) : List Step → FS → FS × Nat × Option Step
  | [], fs => (fs, 0, none)
  | s :: rest, fs =>
      if fails s then (fs, 1, some s)
      else
        let r := runSteps fails tmp rest (writeStep tmp fs s)
        (r.1, r.2.1 + 1, r.2.2)

/-- The messages of the except branch, lines 93-100: the error with the
book's title, the notice that the temp directory is kept, then either
the continue notice or the exit notices. -/
def failLog (book : Book) (tmp : DirName) (continue_on_error : Bool) : List LogEntry :=
  [LogEntry.errorMsg book.title, LogEntry.keepTmpMsg tmp]
    ++ (if continue_on_error then [LogEntry.continueMsg] else [LogEntry.exitMsg])

/-- Lines 50-101 of download_book, from the temp-directory allocation
on: make the temp directory, stage every enabled step into it, then
either commit by renaming it to the final directory (after re-checking
on line 90 that the final directory is still absent) or fall into the
except branch, keeping the temp directory and re-raising unless
continue_on_error is set. -/
def stageAndCommit (book : Book) (library : FS)
    (yaml markdown audio cover continue_on_error : Bool) (fails : Step → Bool) : DLResult :=
  match runSteps fails (tmpDirName library book.slug) (stepList book yaml markdown audio cover)
      (library.mkdir (tmpDirName library book.slug)) with
  | (fs2, n, some s) =>
      ⟨fs2, Outcome.failed (DLFailure.stepFail s) (!continue_on_error), n,
        some (tmpDirName library book.slug),
        failLog book (tmpDirName library book.slug) continue_on_error⟩
  | (fs2, n, none) =>
      if fs2.dirExists (DirName.final book.slug) = true then
        ⟨fs2, Outcome.failed DLFailure.commitRace (!continue_on_error), n,
          some (tmpDirName library book.slug),
          failLog book (tmpDirName library book.slug) continue_on_error⟩
      else
        ⟨fs2.renameDir (tmpDirName library book.slug) (DirName.final book.slug),
          Outcome.committed, n, some (tmpDirName library book.slug), []⟩

/-- download_book (main.py lines 24-101): pre-flight assert on the
library root, then the skip check, then the staging transaction. -/
def download_book (book : Book) (language : String) (library : FS)
    (yaml markdown audio cover redownload continue_on_error : Bool)
    (fails : Step → Bool) : DLResult :=
  if library.rootExists = false then
    ⟨library, Outcome.preflightFailed, 0, none, []⟩
  else if library.dirExists (DirName.final book.slug) = true ∧ redownload = false then
    ⟨library, Outcome.skipped, 0, none, [LogEntry.skipMsg book.title]⟩
  else
    stageAndCommit book library yaml markdown audio cover continue_on_error fails

/-- Modelled from the spec: the LANGUAGES constant of blinkist/config.py
(not under src/), the finite list of supported language choices offered
to the --language option; taken as the two Blinkist content languages. -/
def LANGUAGES : List String := ["en", "de"]

/-- Modelled from the spec: Book identity (blinkist/book.py, not under
src/) — two work items are the same job iff their slugs are equal, so
the Python set of books is modelled as a slug-keyed, insertion-ordered
collection.  `setAdd` is `set.add`: a no-op when the slug is present. -/
def setAdd (s : List Book) (b : Book) : List Book :=
  if s.any (fun x => x.slug = b.slug) then s else s ++ [b]

/-- Union with the deduplicated contents of a directive's result list
(the Python `books_to_download |= set(result)`). -/
def setUnion (s : List Book) (l : List Book) : List Book :=
  l.foldl setAdd s

/-- The run configuration of main() together with what each enabled
remote discovery directive returns (the remote client is an external
collaborator): `book_slug`, `search`, `latest`, `trending` are
`some result` when the corresponding option was passed, `collections`
holds each returned collection's book list, and `daily locale` is what
get_free_daily returns for a locale. -/
structure ResolveInput where
  language : Option String
  book_slug : Option Book
  collections : Option (List (List Book))
  freedaily : Bool
  daily : String → Book
  search : Option (List Book)
  latest : Option (List Book)
  trending : Option (List Book)
  limit : Option Int

/-- Line 131: the single requested language, defaulting to all of
LANGUAGES when none was requested. -/
def languagesToDownload (inp : ResolveInput) : List String :=
  match inp.language with
  | some l => [l]
  | none => LANGUAGES

/-- Lines 141-142: add the slug-lookup result, when requested. -/
def addOpt (s : List Book) : Option Book → List Book
  | some b => setAdd s b
  | none => s

/-- Merge an optional directive result list into the set. -/
def unionOpt (s : List Book) : Option (List Book) → List Book
  | some l => setUnion s l
  | none => s

/-- Lines 144-153: merge every returned collection's books. -/
def addCollections (s : List Book) : Option (List (List Book)) → List Book
  | some cs => cs.foldl (fun t c => setUnion t c) s
  | none => s

/-- Lines 155-159: add the free daily of every language to download. -/
def addDaily (inp : ResolveInput) (s : List Book) : List Book :=
  if inp.freedaily then
    (languagesToDownload inp).foldl (fun t lg => setAdd t (inp.daily lg)) s
  else s

/-- books_to_download as accumulated by main() lines 132-176, the
directives in source order: slug lookup, latest collections, free
daily per language, search, latest, trending. -/
def gatherBooks (inp : ResolveInput) : List Book :=
  unionOpt
    (unionOpt
      (unionOpt (addDaily inp (addCollections (addOpt [] inp.book_slug) inp.collections))
        inp.search)
      inp.latest)
    inp.trending

/-- Python list slicing `l[:n]` for an int `n`: a nonnegative bound
keeps the first `n` items, a negative bound drops the last `-n`. -/
def pySliceTo (l : List Book) (n : Int) : List Book :=
  if 0 ≤ n then l.take n.toNat else l.take ((l.length : Int) + n).toNat

/-- The language post-filter of main() line 179, applied to the set's
iteration order.  Python set iteration order is arbitrary (hash and
insertion dependent), so it enters as the parameter `setEnum`. -/
def filteredBooks (inp : ResolveInput) (setEnum : List Book → List Book) : List Book :=
  (setEnum (gatherBooks inp)).filter (fun b => decide (b.language ∈ languagesToDownload inp))

/-- The resolved job list of main() lines 132-184: merge, filter, then
truncate when a truthy limit was passed (lines 182-184; `if
kwargs[limit]` is falsy both for None and for 0). -/
def resolve (inp : ResolveInput) (setEnum : List Book → List Book) : List Book :=
  match inp.limit with
  | none => filteredBooks inp setEnum
  | some n =>
      if n ≠ 0 then pySliceTo (filteredBooks inp setEnum) n else filteredBooks inp setEnum

/-! Concrete instances used by the witness theorems. -/

def bkAlpha : Book := ⟨"alpha", "Alpha", "en", true, [0, 1]⟩

def bkBeta : Book := ⟨"beta", "Beta", "en", false, []⟩

def bkGamma : Book := ⟨"gamma", "Gamma", "xx", false, []⟩

def fsEmpty : FS := ⟨true, []⟩

def fsNoRoot : FS := ⟨false, []⟩

def fsAlphaDone : FS := ⟨true, [(DirName.final "alpha", [])]⟩

def failsNone : Step → Bool := fun _ => false

def failsAudio : Step → Bool := fun s =>
  match s with
  | Step.audioStep _ => true
  | _ => false

def inpBase : ResolveInput :=
  ⟨none, none, none, false, fun _ => bkAlpha, none, none, none, none⟩

def inpLatest2 : ResolveInput :=
  ⟨none, none, none, false, fun _ => bkAlpha, none, some [bkAlpha, bkBeta], none, some 1⟩

def inpOverlap : ResolveInput :=
  ⟨none, none, none, false, fun _ => bkAlpha, none, some [bkAlpha, bkBeta, bkAlpha],
    some [bkAlpha], none⟩

def inpForeign : ResolveInput :=
  ⟨none, none, none, false, fun _ => bkAlpha, some [bkGamma], none, none, none⟩

def inpEnglish : ResolveInput :=
  ⟨some "en", none, none, false, fun _ => bkAlpha, none, some [bkAlpha], none, none⟩

/-! Helper lemmas about the filesystem model. -/

theorem dirExists_iff (fs : FS) (n : DirName) :
    fs.dirExists n = true ↔ ∃ p ∈ fs.dirs, p.1 = n := by
  simp [FS.dirExists, List.any_eq_true]

theorem dirExists_false_keys (fs : FS) (n : DirName) (h : fs.dirExists n = false) :
    ∀ p ∈ fs.dirs, p.1 ≠ n := by
  intro p hp he
  have : fs.dirExists n = true := (dirExists_iff fs n).mpr ⟨p, hp, he⟩
  rw [h] at this
  exact Bool.false_ne_true this

theorem freshAux_or (fs : FS) (slug : String) :
    ∀ fuel i, (∀ j, j < fuel → fs.dirExists (DirName.tmp slug (i + j)) = true)
      ∨ fs.dirExists (DirName.tmp slug (freshTmpIdxAux fs slug fuel i)) = false := by
  intro fuel
  induction fuel with
  | zero => exact fun i => Or.inl (fun j hj => absurd hj (Nat.not_lt_zero j))
  | succ fuel ih =>
      intro i
      by_cases h : fs.dirExists (DirName.tmp slug i) = true
      · rcases ih (i + 1) with hl | hr
        · left
          intro j hj
          cases j with
          | zero => simpa using h
          | succ j =>
              have hx := hl j (Nat.lt_of_succ_lt_succ hj)
              have he : i + (j + 1) = (i + 1) + j := by omega
              rw [he]
              exact hx
        · right
          simpa [freshTmpIdxAux, h] using hr
      · right
        have h' : fs.dirExists (DirName.tmp slug i) = false := by
          revert h; cases fs.dirExists (DirName.tmp slug i) <;> simp
        simpa [freshTmpIdxAux, h'] using h'

/-- The while loop of lines 52-55 terminates on an unused temp name:
there are more candidate names than directories. -/
theorem freshTmpIdx_fresh (fs : FS) (slug : String) :
    fs.dirExists (DirName.tmp slug (freshTmpIdx fs slug)) = false := by
  unfold freshTmpIdx
  rcases freshAux_or fs slug (fs.dirs.length + 1) 0 with hl | hr
  · exfalso
    have hsub : (List.range (fs.dirs.length + 1)).map (fun j => DirName.tmp slug j) ⊆
        fs.dirs.map Prod.fst := by
      intro x hx
      rcases List.mem_map.mp hx with ⟨j, hj, rfl⟩
      have hx2 := hl j (List.mem_range.mp hj)
      rw [Nat.zero_add] at hx2
      rcases (dirExists_iff fs (DirName.tmp slug j)).mp hx2 with ⟨p, hp, hpe⟩
      exact List.mem_map.mpr ⟨p, hp, hpe⟩
    have hinj : Function.Injective (fun j => DirName.tmp slug j) := by
      intro a b h
      simpa using h
    have hnd := List.Nodup.map hinj (List.nodup_range (fs.dirs.length + 1))
    have hle := (List.Nodup.subperm hnd hsub).length_le
    simp [List.length_map, List.length_range] at hle
  · exact hr

theorem tmpDirName_fresh (library : FS) (slug : String) :
    library.dirExists (tmpDirName library slug) = false :=
  freshTmpIdx_fresh library slug

/-! Shape of the filesystem while staging: the temp directory is the
last entry, everything before it is the untouched original library. -/

theorem map_write_keep (d : List (DirName × List Artifact)) (tmp : DirName) (a : Artifact)
    (hd : ∀ p ∈ d, p.1 ≠ tmp) :
    d.map (fun p => if p.1 = tmp then (p.1, p.2 ++ [a]) else p) = d := by
  induction d with
  | nil => rfl
  | cons p d ih =>
      have h1 : p.1 ≠ tmp := hd p (List.mem_cons_self p d)
      have h2 : ∀ q ∈ d, q.1 ≠ tmp := fun q hq => hd q (List.mem_cons_of_mem p hq)
      simp [h1, ih h2]

theorem map_rename_keep (d : List (DirName × List Artifact)) (tmp dst : DirName)
    (hd : ∀ p ∈ d, p.1 ≠ tmp) :
    d.map (fun p => if p.1 = tmp then (dst, p.2) else p) = d := by
  induction d with
  | nil => rfl
  | cons p d ih =>
      have h1 : p.1 ≠ tmp := hd p (List.mem_cons_self p d)
      have h2 : ∀ q ∈ d, q.1 ≠ tmp := fun q hq => hd q (List.mem_cons_of_mem p hq)
      simp [h1, ih h2]

theorem writeStep_shape (tmp : DirName) (re : Bool) (d : List (DirName × List Artifact))
    (c : List Artifact) (hd : ∀ p ∈ d, p.1 ≠ tmp) (s : Step) :
    writeStep tmp ⟨re, d ++ [(tmp, c)]⟩ s =
      ⟨re, d ++ [(tmp, c ++ (stepArtifact s).toList)]⟩ := by
  unfold writeStep
  cases hs : stepArtifact s with
  | none => simp
  | some a =>
      show FS.writeArtifact ⟨re, d ++ [(tmp, c)]⟩ tmp a = _
      unfold FS.writeArtifact
      simp [List.map_append, map_write_keep d tmp a hd]

theorem foldl_writeStep_shape (tmp : DirName) (re : Bool) (d : List (DirName × List Artifact))
    (hd : ∀ p ∈ d, p.1 ≠ tmp) :
    ∀ (l : List Step) (c : List Artifact),
      l.foldl (writeStep tmp) ⟨re, d ++ [(tmp, c)]⟩ =
        ⟨re, d ++ [(tmp, c ++ l.filterMap stepArtifact)]⟩ := by
  intro l
  induction l with
  | nil => intro c; simp
  | cons s l ih =>
      intro c
      rw [List.foldl_cons, writeStep_shape tmp re d c hd s, ih]
      cases hs : stepArtifact s <;> simp [List.filterMap_cons, hs]

theorem renameDir_shape (re : Bool) (d : List (DirName × List Artifact)) (tmp dst : DirName)
    (c : List Artifact) (hd : ∀ p ∈ d, p.1 ≠ tmp) :
    FS.renameDir ⟨re, d ++ [(tmp, c)]⟩ tmp dst = ⟨re, d ++ [(dst, c)]⟩ := by
  unfold FS.renameDir
  simp [List.map_append, map_rename_keep d tmp dst hd]

theorem contents_append_ne (re : Bool) (d : List (DirName × List Artifact)) (n m : DirName)
    (c : List Artifact) (hm : n ≠ m) :
    FS.contents ⟨re, d ++ [(n, c)]⟩ m = FS.contents ⟨re, d⟩ m := by
  unfold FS.contents
  rw [List.find?_append]
  have : List.find? (fun p => p.1 = m) [(n, c)] = none := by
    simp [List.find?, hm]
  rw [this, Option.or_none]

theorem contents_append_self (re : Bool) (d : List (DirName × List Artifact)) (n : DirName)
    (c : List Artifact) (hd : ∀ p ∈ d, p.1 ≠ n) :
    FS.contents ⟨re, d ++ [(n, c)]⟩ n = some c := by
  unfold FS.contents
  rw [List.find?_append]
  have h1 : List.find? (fun p => p.1 = n) d = none := by
    rw [List.find?_eq_none]
    intro p hp
    simp [hd p hp]
  rw [h1, Option.none_or]
  simp [List.find?]

theorem dirExists_append (re : Bool) (d : List (DirName × List Artifact)) (n m : DirName)
    (c : List Artifact) :
    FS.dirExists ⟨re, d ++ [(n, c)]⟩ m = (FS.dirExists ⟨re, d⟩ m || decide (n = m)) := by
  unfold FS.dirExists
  simp [List.any_append]

/-! Characterization of the staging loop: it performs the successful
steps up to the first failing one, in order. -/

theorem runSteps_eq (fails : Step → Bool) (tmp : DirName) :
    ∀ (steps : List Step) (fs : FS),
      runSteps fails tmp steps fs =
        match steps.dropWhile (fun t => !fails t) with
        | [] => (steps.foldl (writeStep tmp) fs, steps.length, none)
        | s :: _ =>
            ((steps.takeWhile (fun t => !fails t)).foldl (writeStep tmp) fs,
              (steps.takeWhile (fun t => !fails t)).length + 1, some s) := by
  intro steps
  induction steps with
  | nil => intro fs; rfl
  | cons s rest ih =>
      intro fs
      by_cases hf : fails s = true
      · simp [runSteps, hf, List.dropWhile_cons, List.takeWhile_cons]
      · have hf' : fails s = false := by
          revert hf; cases fails s <;> simp
        rw [show runSteps fails tmp (s :: rest) fs =
            (if fails s then (fs, 1, some s)
             else
               ((runSteps fails tmp rest (writeStep tmp fs s)).1,
                (runSteps fails tmp rest (writeStep tmp fs s)).2.1 + 1,
                (runSteps fails tmp rest (writeStep tmp fs s)).2.2)) from rfl]
        rw [if_neg (by simp [hf'])]
        rw [ih (writeStep tmp fs s)]
        cases hdw : rest.dropWhile (fun t => !fails t) with
        | nil => simp [List.dropWhile_cons, List.takeWhile_cons, hf', hdw]
        | cons a l => simp [List.dropWhile_cons, List.takeWhile_cons, hf', hdw]

theorem all_dropWhile_nil {p : Step → Bool} :
    ∀ {l : List Step}, l.all p = true → l.dropWhile p = [] := by
  intro l
  induction l with
  | nil => intro _; rfl
  | cons s rest ih =>
      intro h
      rw [List.all_cons] at h
      rcases Bool.and_eq_true_iff.mp h with ⟨h1, h2⟩
      simp [List.dropWhile_cons, h1, ih h2]

theorem takeWhile_of_all {p : Step → Bool} :
    ∀ {l : List Step}, l.all p = true → l.takeWhile p = l := by
  intro l
  induction l with
  | nil => intro _; rfl
  | cons s rest ih =>
      intro h
      rw [List.all_cons] at h
      rcases Bool.and_eq_true_iff.mp h with ⟨h1, h2⟩
      simp [List.takeWhile_cons, h1, ih h2]

theorem any_dropWhile_cons {q : Step → Bool} :
    ∀ {l : List Step}, l.any q = true →
      ∃ s rest, l.dropWhile (fun t => !q t) = s :: rest ∧ q s = true := by
  intro l
  induction l with
  | nil => intro h; simp at h
  | cons s rest ih =>
      intro h
      by_cases hq : q s = true
      · exact ⟨s, rest, by simp [List.dropWhile_cons, hq], hq⟩
      · have hq' : q s = false := by revert hq; cases q s <;> simp
        rw [List.any_cons, hq', Bool.false_or] at h
        rcases ih h with ⟨a, l2, hl, ha⟩
        exact ⟨a, l2, by simp [List.dropWhile_cons, hq', hl], ha⟩

/-! Branch equations for download_book. -/

theorem download_book_preflight (book : Book) (language : String) (library : FS)
    (yaml markdown audio cover redownload continue_on_error : Bool) (fails : Step → Bool)
    (h : library.rootExists = false) :
    download_book book language library yaml markdown audio cover redownload continue_on_error
        fails = ⟨library, Outcome.preflightFailed, 0, none, []⟩ := by
  unfold download_book
  rw [if_pos h]

theorem download_book_skip (book : Book) (language : String) (library : FS)
    (yaml markdown audio cover continue_on_error : Bool) (fails : Step → Bool)
    (hroot : library.rootExists = true)
    (hex : library.dirExists (DirName.final book.slug) = true) :
    download_book book language library yaml markdown audio cover false continue_on_error
        fails = ⟨library, Outcome.skipped, 0, none, [LogEntry.skipMsg book.title]⟩ := by
  unfold download_book
  rw [if_neg (by simp [hroot]), if_pos ⟨hex, rfl⟩]

theorem dirExists_mk (re : Bool) (fs : FS) (n : DirName) :
    FS.dirExists ⟨re, fs.dirs⟩ n = fs.dirExists n := rfl

theorem contents_mk (re : Bool) (fs : FS) (n : DirName) :
    FS.contents ⟨re, fs.dirs⟩ n = fs.contents n := rfl

theorem mkdir_eq (library : FS) (n : DirName) (hroot : library.rootExists = true) :
    library.mkdir n = ⟨true, library.dirs ++ [(n, [])]⟩ := by
  unfold FS.mkdir
  rw [hroot]

/-- A remote step raising inside the try block: the temp directory is
kept as the last directory, holding exactly the artifacts of the steps
that completed before the failure, and the except branch runs. -/
theorem stageAndCommit_fail (book : Book) (library : FS)
    (yaml markdown audio cover continue_on_error : Bool) (fails : Step → Bool)
    (s : Step) (rest : List Step)
    (hroot : library.rootExists = true)
    (hdw : (stepList book yaml markdown audio cover).dropWhile (fun t => !fails t) = s :: rest) :
    stageAndCommit book library yaml markdown audio cover continue_on_error fails =
      ⟨⟨true, library.dirs ++ [(tmpDirName library book.slug,
          ((stepList book yaml markdown audio cover).takeWhile (fun t => !fails t)).filterMap
            stepArtifact)]⟩,
        Outcome.failed (DLFailure.stepFail s) (!continue_on_error),
        ((stepList book yaml markdown audio cover).takeWhile (fun t => !fails t)).length + 1,
        some (tmpDirName library book.slug),
        failLog book (tmpDirName library book.slug) continue_on_error⟩ := by
  have hkeys : ∀ p ∈ library.dirs, p.1 ≠ tmpDirName library book.slug :=
    dirExists_false_keys library _ (tmpDirName_fresh library book.slug)
  unfold stageAndCommit
  rw [runSteps_eq, hdw, mkdir_eq library _ hroot]
  simp [foldl_writeStep_shape (tmpDirName library book.slug) true library.dirs hkeys]

/-- All steps succeeded and the final directory is still absent at the
pre-rename re-check: the temp directory is renamed into the final one,
which then holds every staged artifact. -/
theorem stageAndCommit_commit (book : Book) (library : FS)
    (yaml markdown audio cover continue_on_error : Bool) (fails : Step → Bool)
    (hroot : library.rootExists = true)
    (hall : (stepList book yaml markdown audio cover).all (fun t => !fails t) = true)
    (hnof : library.dirExists (DirName.final book.slug) = false) :
    stageAndCommit book library yaml markdown audio cover continue_on_error fails =
      ⟨⟨true, library.dirs ++ [(DirName.final book.slug,
          (stepList book yaml markdown audio cover).filterMap stepArtifact)]⟩,
        Outcome.committed, (stepList book yaml markdown audio cover).length,
        some (tmpDirName library book.slug), []⟩ := by
  have hkeys : ∀ p ∈ library.dirs, p.1 ≠ tmpDirName library book.slug :=
    dirExists_false_keys library _ (tmpDirName_fresh library book.slug)
  have hdw := all_dropWhile_nil hall
  have hrn := renameDir_shape true library.dirs (tmpDirName library book.slug)
    (DirName.final book.slug)
    ((stepList book yaml markdown audio cover).filterMap stepArtifact) hkeys
  have hne : (decide (tmpDirName library book.slug = DirName.final book.slug)) = false := by
    simp [tmpDirName]
  unfold stageAndCommit
  rw [runSteps_eq, hdw, mkdir_eq library _ hroot,
    foldl_writeStep_shape (tmpDirName library book.slug) true library.dirs hkeys]
  simp [dirExists_append, dirExists_mk, hnof, hne, hrn]

/-- All steps succeeded but the final directory exists at the pre-rename
re-check (line 90): the assert raises inside the try block, nothing is
renamed, and the except branch runs. -/
theorem stageAndCommit_race (book : Book) (library : FS)
    (yaml markdown audio cover continue_on_error : Bool) (fails : Step → Bool)
    (hroot : library.rootExists = true)
    (hall : (stepList book yaml markdown audio cover).all (fun t => !fails t) = true)
    (hyes : library.dirExists (DirName.final book.slug) = true) :
    stageAndCommit book library yaml markdown audio cover continue_on_error fails =
      ⟨⟨true, library.dirs ++ [(tmpDirName library book.slug,
          (stepList book yaml markdown audio cover).filterMap stepArtifact)]⟩,
        Outcome.failed DLFailure.commitRace (!continue_on_error),
        (stepList book yaml markdown audio cover).length,
        some (tmpDirName library book.slug),
        failLog book (tmpDirName library book.slug) continue_on_error⟩ := by
  have hkeys : ∀ p ∈ library.dirs, p.1 ≠ tmpDirName library book.slug :=
    dirExists_false_keys library _ (tmpDirName_fresh library book.slug)
  have hdw := all_dropWhile_nil hall
  unfold stageAndCommit
  rw [runSteps_eq, hdw, mkdir_eq library _ hroot,
    foldl_writeStep_shape (tmpDirName library book.slug) true library.dirs hkeys]
  simp [dirExists_append, dirExists_mk, hyes]

theorem download_book_stage (book : Book) (language : String) (library : FS)
    (yaml markdown audio cover redownload continue_on_error : Bool) (fails : Step → Bool)
    (hroot : library.rootExists = true)
    (hns : ¬(library.dirExists (DirName.final book.slug) = true ∧ redownload = false)) :
    download_book book language library yaml markdown audio cover redownload continue_on_error
        fails = stageAndCommit book library yaml markdown audio cover continue_on_error fails := by
  unfold download_book
  rw [if_neg (by simp [hroot]), if_neg hns]

/-! Resolver lemmas: the accumulated set never holds two books with the
same slug, and the resolved list is a sublist of the enumerated set. -/

theorem slugs_setAdd {s : List Book} (b : Book) (h : (s.map Book.slug).Nodup) :
    ((setAdd s b).map Book.slug).Nodup := by
  unfold setAdd
  by_cases ha : s.any (fun x => x.slug = b.slug) = true
  · rw [if_pos ha]
    exact h
  · rw [if_neg ha]
    have hb : ∀ x ∈ s, ¬(x.slug = b.slug) := by
      intro x hx he
      exact ha (List.any_eq_true.mpr ⟨x, hx, by simp [he]⟩)
    rw [List.map_append, List.nodup_append]
    refine ⟨h, by simp, ?_⟩
    intro a hal har
    simp at har
    rcases List.mem_map.mp hal with ⟨x, hx, hxe⟩
    exact hb x hx (by rw [hxe, har])

theorem slugs_setUnion (l : List Book) :
    ∀ s, (s.map Book.slug).Nodup → ((setUnion s l).map Book.slug).Nodup := by
  induction l with
  | nil => exact fun s h => h
  | cons b l ih => exact fun s h => ih (setAdd s b) (slugs_setAdd b h)

theorem slugs_addOpt (o : Option Book) (s : List Book) (h : (s.map Book.slug).Nodup) :
    ((addOpt s o).map Book.slug).Nodup := by
  cases o with
  | none => exact h
  | some b => exact slugs_setAdd b h

theorem slugs_unionOpt (o : Option (List Book)) (s : List Book) (h : (s.map Book.slug).Nodup) :
    ((unionOpt s o).map Book.slug).Nodup := by
  cases o with
  | none => exact h
  | some l => exact slugs_setUnion l s h

theorem slugs_addCollections (o : Option (List (List Book))) (s : List Book)
    (h : (s.map Book.slug).Nodup) : ((addCollections s o).map Book.slug).Nodup := by
  cases o with
  | none => exact h
  | some cs =>
      induction cs generalizing s with
      | nil => exact h
      | cons c cs ih => exact ih (setUnion s c) (slugs_setUnion c s h)

theorem slugs_foldl_setAdd {α : Type} (f : α → Book) (l : List α) :
    ∀ s, (s.map Book.slug).Nodup →
      ((l.foldl (fun t x => setAdd t (f x)) s).map Book.slug).Nodup := by
  induction l with
  | nil => exact fun s h => h
  | cons x l ih => exact fun s h => ih (setAdd s (f x)) (slugs_setAdd (f x) h)

theorem slugs_addDaily (inp : ResolveInput) (s : List Book) (h : (s.map Book.slug).Nodup) :
    ((addDaily inp s).map Book.slug).Nodup := by
  unfold addDaily
  by_cases hf : inp.freedaily = true
  · rw [if_pos hf]
    exact slugs_foldl_setAdd inp.daily (languagesToDownload inp) s h
  · rw [if_neg hf]
    exact h

/-- No two books accumulated by main() lines 132-176 share a slug. -/
theorem gather_slugs_nodup (inp : ResolveInput) : ((gatherBooks inp).map Book.slug).Nodup := by
  unfold gatherBooks
  exact slugs_unionOpt _ _ (slugs_unionOpt _ _ (slugs_unionOpt _ _ (slugs_addDaily _ _
    (slugs_addCollections _ _ (slugs_addOpt _ _ (by simp))))))

theorem resolve_sublist_filtered (inp : ResolveInput) (setEnum : List Book → List Book) :
    (resolve inp setEnum).Sublist (filteredBooks inp setEnum) := by
  unfold resolve
  cases inp.limit with
  | none => exact List.Sublist.refl _
  | some n =>
      dsimp only
      by_cases hn : n ≠ 0
      · rw [if_pos hn]
        unfold pySliceTo
        by_cases h0 : 0 ≤ n
        · rw [if_pos h0]
          exact List.take_sublist _ _
        · rw [if_neg h0]
          exact List.take_sublist _ _
      · rw [if_neg hn]

theorem resolve_sublist (inp : ResolveInput) (setEnum : List Book → List Book) :
    (resolve inp setEnum).Sublist (setEnum (gatherBooks inp)) := by
  refine (resolve_sublist_filtered inp setEnum).trans ?_
  unfold filteredBooks
  exact List.filter_sublist _

/-! Claim theorems for the resolver. -/

/-- C3: Deduplication — for any discovery results and any iteration
order the Python set may enumerate (a permutation of the accumulated
set), the resolved job list passed to the download loop contains each
book identifier at most once. -/
theorem C3_dedup (inp : ResolveInput) (setEnum : List Book → List Book)
    (h : (setEnum (gatherBooks inp)).Perm (gatherBooks inp)) :
    ((resolve inp setEnum).map Book.slug).Nodup := by
  have h1 : ((setEnum (gatherBooks inp)).map Book.slug).Nodup :=
    ((h.map Book.slug).nodup_iff).mpr (gather_slugs_nodup inp)
  exact List.Nodup.sublist ((resolve_sublist inp setEnum).map Book.slug) h1

theorem C3_witness :
    (id (gatherBooks inpOverlap)).Perm (gatherBooks inpOverlap)
    ∧ ((resolve inpOverlap id).map Book.slug).Nodup :=
  ⟨List.Perm.refl _, C3_dedup inpOverlap id (List.Perm.refl _)⟩

/-- C4 counterexample: with no language requested, a discovered book
whose language is outside the supported LANGUAGES list is nevertheless
excluded from the resolved job list, refuting "when no language was
requested, no job is excluded on the basis of its language". -/
theorem C4_excluded_without_request :
    inpForeign.language = none ∧ gatherBooks inpForeign = [bkGamma]
    ∧ bkGamma.language ∉ LANGUAGES ∧ resolve inpForeign id = [] :=
  ⟨rfl, by decide, by decide, by decide⟩

/-- C4 (amended): every resolved job's language equals the requested
language when one was supplied; when no language was requested, jobs
are filtered against the supported-language list LANGUAGES instead of
passing unconditionally. -/
theorem C4_language_filter (inp : ResolveInput) (setEnum : List Book → List Book)
    (b : Book) (hb : b ∈ resolve inp setEnum) :
    (∀ l, inp.language = some l → b.language = l)
    ∧ (inp.language = none → b.language ∈ LANGUAGES) := by
  have hbf : b ∈ filteredBooks inp setEnum :=
    (resolve_sublist_filtered inp setEnum).subset hb
  unfold filteredBooks at hbf
  rw [List.mem_filter] at hbf
  have hlang : b.language ∈ languagesToDownload inp := of_decide_eq_true hbf.2
  constructor
  · intro l hl
    unfold languagesToDownload at hlang
    rw [hl] at hlang
    simpa using hlang
  · intro hl
    unfold languagesToDownload at hlang
    rw [hl] at hlang
    simpa using hlang

theorem C4_witness :
    bkAlpha ∈ resolve inpEnglish id
    ∧ ((∀ l, inpEnglish.language = some l → bkAlpha.language = l)
      ∧ (inpEnglish.language = none → bkAlpha.language ∈ LANGUAGES)) :=
  ⟨by decide, C4_language_filter inpEnglish id bkAlpha (by decide)⟩

/-- C5: Limit truncation — with a requested limit N > 0 the resolved
list is the first N items of the merged, filtered collection, of length
min N available; with N = 0 no truncation occurs. -/
theorem C5_limit_truncation (inp : ResolveInput) (setEnum : List Book → List Book) (n : Int)
    (h : inp.limit = some n) :
    (0 < n → resolve inp setEnum = (filteredBooks inp setEnum).take n.toNat
      ∧ (resolve inp setEnum).length = min n.toNat (filteredBooks inp setEnum).length)
    ∧ (n = 0 → resolve inp setEnum = filteredBooks inp setEnum) := by
  constructor
  · intro hn
    have hne : n ≠ 0 := by omega
    have h0 : 0 ≤ n := le_of_lt hn
    unfold resolve
    rw [h]
    dsimp only
    rw [if_pos hne]
    unfold pySliceTo
    rw [if_pos h0]
    exact ⟨rfl, by rw [List.length_take]⟩
  · intro hn
    unfold resolve
    rw [h, hn]
    dsimp only
    simp

theorem C5_witness :
    inpLatest2.limit = some 1
    ∧ ((0 < (1 : Int) →
        resolve inpLatest2 id = (filteredBooks inpLatest2 id).take (1 : Int).toNat
        ∧ (resolve inpLatest2 id).length = min (1 : Int).toNat (filteredBooks inpLatest2 id).length)
      ∧ ((1 : Int) = 0 → resolve inpLatest2 id = filteredBooks inpLatest2 id)) :=
  ⟨rfl, C5_limit_truncation inpLatest2 id 1 rfl⟩

/-- C9: the resolved job list depends on the iteration order of the
Python set.  Both `id` and `List.reverse` are valid enumerations of the
same accumulated set (each is a permutation of it), yet with a limit of
one they resolve different job lists, so two runs whose set enumeration
differs (hash-randomized in CPython) drop different books. -/
theorem C9_order_dependence :
    ((gatherBooks inpLatest2).reverse).Perm (gatherBooks inpLatest2)
    ∧ resolve inpLatest2 id ≠ resolve inpLatest2 List.reverse :=
  ⟨List.reverse_perm _, by decide⟩

/-! Claim theorems for the download transaction executor. -/

theorem dropWhile_nil_all {p : Step → Bool} :
    ∀ {l : List Step}, l.dropWhile p = [] → l.all p = true := by
  intro l
  induction l with
  | nil => intro _; rfl
  | cons s rest ih =>
      intro h
      rw [List.dropWhile_cons] at h
      by_cases hp : p s = true
      · rw [if_pos hp] at h
        rw [List.all_cons, hp, Bool.true_and]
        exact ih h
      · rw [if_neg hp] at h
        exact absurd h (by simp)

/-- C1: Atomicity on failure — once the transaction is started (final
directory absent or redownload requested) and some enabled step raises,
no final directory for the slug is created, no existing directory is
modified, and the temp directory (with its .tmp suffix index) is
retained holding exactly the artifacts of the steps completed before
the failure. -/
theorem C1_atomicity_on_failure (book : Book) (language : String) (library : FS)
    (yaml markdown audio cover redownload continue_on_error : Bool) (fails : Step → Bool)
    (hroot : library.rootExists = true)
    (hstart : library.dirExists (DirName.final book.slug) = false ∨ redownload = true)
    (hfail : (stepList book yaml markdown audio cover).any fails = true) :
    (download_book book language library yaml markdown audio cover redownload
        continue_on_error fails).fs.contents (DirName.final book.slug)
      = library.contents (DirName.final book.slug)
    ∧ (∀ name, library.dirExists name = true →
        (download_book book language library yaml markdown audio cover redownload
            continue_on_error fails).fs.contents name = library.contents name)
    ∧ ∃ i, (download_book book language library yaml markdown audio cover redownload
          continue_on_error fails).tmpDir = some (DirName.tmp book.slug i)
        ∧ (download_book book language library yaml markdown audio cover redownload
            continue_on_error fails).fs.dirExists (DirName.tmp book.slug i) = true
        ∧ (download_book book language library yaml markdown audio cover redownload
            continue_on_error fails).fs.contents (DirName.tmp book.slug i)
          = some (((stepList book yaml markdown audio cover).takeWhile
              (fun t => !fails t)).filterMap stepArtifact) := by
  have hns : ¬(library.dirExists (DirName.final book.slug) = true ∧ redownload = false) := by
    rintro ⟨h1, h2⟩
    rcases hstart with h | h
    · rw [h] at h1
      exact absurd h1 (by simp)
    · rw [h] at h2
      exact absurd h2 (by simp)
  rcases any_dropWhile_cons hfail with ⟨s, rest, hdw, _⟩
  have hkeys : ∀ p ∈ library.dirs, p.1 ≠ DirName.tmp book.slug (freshTmpIdx library book.slug) :=
    dirExists_false_keys library _ (tmpDirName_fresh library book.slug)
  rw [download_book_stage book language library yaml markdown audio cover redownload
      continue_on_error fails hroot hns,
    stageAndCommit_fail book library yaml markdown audio cover continue_on_error fails s rest
      hroot hdw]
  dsimp only
  simp only [tmpDirName]
  have hne : DirName.tmp book.slug (freshTmpIdx library book.slug) ≠ DirName.final book.slug := by
    simp
  refine ⟨?_, ?_, freshTmpIdx library book.slug, rfl, ?_, ?_⟩
  · rw [contents_append_ne true library.dirs _ _ _ hne, contents_mk]
  · intro name hname
    have hnn : DirName.tmp book.slug (freshTmpIdx library book.slug) ≠ name := by
      intro he
      have hfr := tmpDirName_fresh library book.slug
      rw [tmpDirName, he, hname] at hfr
      exact absurd hfr (by simp)
    rw [contents_append_ne true library.dirs _ _ _ hnn, contents_mk]
  · rw [dirExists_append]
    simp
  · exact contents_append_self true library.dirs _ _ hkeys

theorem C1_witness :
    fsEmpty.rootExists = true
    ∧ (fsEmpty.dirExists (DirName.final bkAlpha.slug) = false ∨ (false : Bool) = true)
    ∧ (stepList bkAlpha true true true true).any failsAudio = true
    ∧ ((download_book bkAlpha "en" fsEmpty true true true true false false
          failsAudio).fs.contents (DirName.final bkAlpha.slug)
        = fsEmpty.contents (DirName.final bkAlpha.slug)
      ∧ (∀ name, fsEmpty.dirExists name = true →
          (download_book bkAlpha "en" fsEmpty true true true true false false
              failsAudio).fs.contents name = fsEmpty.contents name)
      ∧ ∃ i, (download_book bkAlpha "en" fsEmpty true true true true false false
            failsAudio).tmpDir = some (DirName.tmp bkAlpha.slug i)
          ∧ (download_book bkAlpha "en" fsEmpty true true true true false false
              failsAudio).fs.dirExists (DirName.tmp bkAlpha.slug i) = true
          ∧ (download_book bkAlpha "en" fsEmpty true true true true false false
              failsAudio).fs.contents (DirName.tmp bkAlpha.slug i)
            = some (((stepList bkAlpha true true true true).takeWhile
                (fun t => !failsAudio t)).filterMap stepArtifact)) :=
  ⟨rfl, Or.inl (by decide), by decide,
    C1_atomicity_on_failure bkAlpha "en" fsEmpty true true true true false false failsAudio
      rfl (Or.inl (by decide)) (by decide)⟩

/-- C2: Commit-or-nothing — when every enabled step succeeds, the temp
directory is renamed to the final directory (which then exists with all
staged artifacts while the temp directory is gone); if a final
directory for the slug already exists at commit time, the pre-rename
assert raises instead of overwriting it, treated as a per-item
download error. -/
theorem C2_commit_or_nothing (book : Book) (language : String) (library : FS)
    (yaml markdown audio cover redownload continue_on_error : Bool) (fails : Step → Bool)
    (hroot : library.rootExists = true)
    (hstart : library.dirExists (DirName.final book.slug) = false ∨ redownload = true)
    (hall : (stepList book yaml markdown audio cover).all (fun t => !fails t) = true) :
    (library.dirExists (DirName.final book.slug) = false →
      (download_book book language library yaml markdown audio cover redownload
          continue_on_error fails).outcome = Outcome.committed
      ∧ (download_book book language library yaml markdown audio cover redownload
          continue_on_error fails).fs.dirExists (DirName.final book.slug) = true
      ∧ (download_book book language library yaml markdown audio cover redownload
          continue_on_error fails).fs.contents (DirName.final book.slug)
        = some ((stepList book yaml markdown audio cover).filterMap stepArtifact)
      ∧ ∃ i, (download_book book language library yaml markdown audio cover redownload
            continue_on_error fails).tmpDir = some (DirName.tmp book.slug i)
          ∧ (download_book book language library yaml markdown audio cover redownload
              continue_on_error fails).fs.dirExists (DirName.tmp book.slug i) = false)
    ∧ (library.dirExists (DirName.final book.slug) = true →
      (download_book book language library yaml markdown audio cover redownload
          continue_on_error fails).outcome
        = Outcome.failed DLFailure.commitRace (!continue_on_error)
      ∧ (download_book book language library yaml markdown audio cover redownload
          continue_on_error fails).fs.contents (DirName.final book.slug)
        = library.contents (DirName.final book.slug)
      ∧ raisesOut (download_book book language library yaml markdown audio cover redownload
          continue_on_error fails).outcome = !continue_on_error) := by
  have hns : ¬(library.dirExists (DirName.final book.slug) = true ∧ redownload = false) := by
    rintro ⟨h1, h2⟩
    rcases hstart with h | h
    · rw [h] at h1
      exact absurd h1 (by simp)
    · rw [h] at h2
      exact absurd h2 (by simp)
  constructor
  · intro hnof
    rw [download_book_stage book language library yaml markdown audio cover redownload
        continue_on_error fails hroot hns,
      stageAndCommit_commit book library yaml markdown audio cover continue_on_error fails
        hroot hall hnof]
    dsimp only
    simp only [tmpDirName]
    refine ⟨by trivial, ?_, ?_, freshTmpIdx library book.slug, by trivial, ?_⟩
    · rw [dirExists_append]
      simp
    · exact contents_append_self true library.dirs _ _ (dirExists_false_keys library _ hnof)
    · rw [dirExists_append]
      have h1 : FS.dirExists ⟨true, library.dirs⟩
          (DirName.tmp book.slug (freshTmpIdx library book.slug)) = false := by
        rw [dirExists_mk]
        exact tmpDirName_fresh library book.slug
      rw [h1]
      simp
  · intro hyes
    rw [download_book_stage book language library yaml markdown audio cover redownload
        continue_on_error fails hroot hns,
      stageAndCommit_race book library yaml markdown audio cover continue_on_error fails
        hroot hall hyes]
    dsimp only
    refine ⟨rfl, ?_, rfl⟩
    rw [contents_append_ne true library.dirs _ _ _ (by simp [tmpDirName]), contents_mk]

theorem C2_witness :
    fsEmpty.rootExists = true
    ∧ (fsEmpty.dirExists (DirName.final bkAlpha.slug) = false ∨ (false : Bool) = true)
    ∧ (stepList bkAlpha true true true true).all (fun t => !failsNone t) = true
    ∧ ((fsEmpty.dirExists (DirName.final bkAlpha.slug) = false →
        (download_book bkAlpha "en" fsEmpty true true true true false false
            failsNone).outcome = Outcome.committed
        ∧ (download_book bkAlpha "en" fsEmpty true true true true false false
            failsNone).fs.dirExists (DirName.final bkAlpha.slug) = true
        ∧ (download_book bkAlpha "en" fsEmpty true true true true false false
            failsNone).fs.contents (DirName.final bkAlpha.slug)
          = some ((stepList bkAlpha true true true true).filterMap stepArtifact)
        ∧ ∃ i, (download_book bkAlpha "en" fsEmpty true true true true false false
              failsNone).tmpDir = some (DirName.tmp bkAlpha.slug i)
            ∧ (download_book bkAlpha "en" fsEmpty true true true true false false
                failsNone).fs.dirExists (DirName.tmp bkAlpha.slug i) = false)
      ∧ (fsEmpty.dirExists (DirName.final bkAlpha.slug) = true →
        (download_book bkAlpha "en" fsEmpty true true true true false false
            failsNone).outcome = Outcome.failed DLFailure.commitRace (!false)
        ∧ (download_book bkAlpha "en" fsEmpty true true true true false false
            failsNone).fs.contents (DirName.final bkAlpha.slug)
          = fsEmpty.contents (DirName.final bkAlpha.slug)
        ∧ raisesOut (download_book bkAlpha "en" fsEmpty true true true true false false
            failsNone).outcome = !false)) :=
  ⟨rfl, Or.inl (by decide), by decide,
    C2_commit_or_nothing bkAlpha "en" fsEmpty true true true true false false failsNone
      rfl (Or.inl (by decide)) (by decide)⟩

/-- C6: Skip idempotence — when the final directory exists and
redownload is false, the executor returns immediately: the filesystem
is unchanged, no network call is attempted and no temp directory is
created, so a rerun over an already-committed slug downloads nothing. -/
theorem C6_skip_idempotence (book : Book) (language : String) (library : FS)
    (yaml markdown audio cover continue_on_error : Bool) (fails : Step → Bool)
    (hroot : library.rootExists = true)
    (hex : library.dirExists (DirName.final book.slug) = true) :
    download_book book language library yaml markdown audio cover false continue_on_error fails
      = ⟨library, Outcome.skipped, 0, none, [LogEntry.skipMsg book.title]⟩ :=
  download_book_skip book language library yaml markdown audio cover continue_on_error fails
    hroot hex

theorem C6_witness :
    fsAlphaDone.rootExists = true
    ∧ fsAlphaDone.dirExists (DirName.final bkAlpha.slug) = true
    ∧ download_book bkAlpha "en" fsAlphaDone true true true true false false failsNone
      = ⟨fsAlphaDone, Outcome.skipped, 0, none, [LogEntry.skipMsg bkAlpha.title]⟩ :=
  ⟨rfl, by decide,
    C6_skip_idempotence bkAlpha "en" fsAlphaDone true true true true false failsNone
      rfl (by decide)⟩

/-- C7: Pre-flight guard — with a non-existent library root the
executor fails immediately: the filesystem is untouched, no skip check
matters, no temp directory or network call happens, and the failure
propagates out regardless of continue-on-error (the assert sits outside
the try block). -/
theorem C7_preflight_guard (book : Book) (language : String) (library : FS)
    (yaml markdown audio cover redownload continue_on_error : Bool) (fails : Step → Bool)
    (h : library.rootExists = false) :
    download_book book language library yaml markdown audio cover redownload continue_on_error
        fails = ⟨library, Outcome.preflightFailed, 0, none, []⟩
    ∧ raisesOut (download_book book language library yaml markdown audio cover redownload
        continue_on_error fails).outcome = true := by
  have he := download_book_preflight book language library yaml markdown audio cover redownload
    continue_on_error fails h
  refine ⟨he, ?_⟩
  rw [he]
  rfl

theorem C7_witness :
    fsNoRoot.rootExists = false
    ∧ (download_book bkAlpha "en" fsNoRoot true true true true false true failsNone
        = ⟨fsNoRoot, Outcome.preflightFailed, 0, none, []⟩
      ∧ raisesOut (download_book bkAlpha "en" fsNoRoot true true true true false true
          failsNone).outcome = true) :=
  ⟨rfl, C7_preflight_guard bkAlpha "en" fsNoRoot true true true true false true failsNone rfl⟩

/-- C8: Continue-on-error policy — whenever the executor ends in the
except branch (a staging step raised or the commit-race assert fired),
the exception is re-raised exactly when continue-on-error is off, and
the log informs the caller with the book's title and the name of the
retained temp directory, which still exists. -/
theorem C8_continue_on_error (book : Book) (language : String) (library : FS)
    (yaml markdown audio cover redownload continue_on_error : Bool) (fails : Step → Bool)
    (e : DLFailure) (b : Bool)
    (h : (download_book book language library yaml markdown audio cover redownload
        continue_on_error fails).outcome = Outcome.failed e b) :
    b = !continue_on_error
    ∧ (continue_on_error = true →
        raisesOut (download_book book language library yaml markdown audio cover redownload
          continue_on_error fails).outcome = false)
    ∧ (continue_on_error = false →
        raisesOut (download_book book language library yaml markdown audio cover redownload
          continue_on_error fails).outcome = true)
    ∧ ∃ tmp, (download_book book language library yaml markdown audio cover redownload
          continue_on_error fails).tmpDir = some tmp
        ∧ (download_book book language library yaml markdown audio cover redownload
            continue_on_error fails).fs.dirExists tmp = true
        ∧ LogEntry.errorMsg book.title ∈ (download_book book language library yaml markdown
            audio cover redownload continue_on_error fails).log
        ∧ LogEntry.keepTmpMsg tmp ∈ (download_book book language library yaml markdown audio
            cover redownload continue_on_error fails).log := by
  cases hroot : library.rootExists with
  | false =>
      rw [download_book_preflight book language library yaml markdown audio cover redownload
        continue_on_error fails hroot] at h
      exact absurd h (by simp)
  | true =>
      by_cases hskip : library.dirExists (DirName.final book.slug) = true ∧ redownload = false
      · rcases hskip with ⟨h1, h2⟩
        subst h2
        rw [download_book_skip book language library yaml markdown audio cover
          continue_on_error fails hroot h1] at h
        exact absurd h (by simp)
      · rw [download_book_stage book language library yaml markdown audio cover redownload
          continue_on_error fails hroot hskip] at h ⊢
        cases hdw : (stepList book yaml markdown audio cover).dropWhile (fun t => !fails t) with
        | cons s rest =>
            rw [stageAndCommit_fail book library yaml markdown audio cover continue_on_error
              fails s rest hroot hdw] at h ⊢
            dsimp only at h ⊢
            injection h with he hb
            refine ⟨hb.symm, ?_, ?_, tmpDirName library book.slug, rfl, ?_, ?_, ?_⟩
            · intro hco
              rw [hco]
              rfl
            · intro hco
              rw [hco]
              rfl
            · rw [dirExists_append]
              simp
            · simp [failLog]
            · simp [failLog]
        | nil =>
            have hall := dropWhile_nil_all hdw
            by_cases hyes : library.dirExists (DirName.final book.slug) = true
            · rw [stageAndCommit_race book library yaml markdown audio cover continue_on_error
                fails hroot hall hyes] at h ⊢
              dsimp only at h ⊢
              injection h with he hb
              refine ⟨hb.symm, ?_, ?_, tmpDirName library book.slug, rfl, ?_, ?_, ?_⟩
              · intro hco
                rw [hco]
                rfl
              · intro hco
                rw [hco]
                rfl
              · rw [dirExists_append]
                simp
              · simp [failLog]
              · simp [failLog]
            · have hnof : library.dirExists (DirName.final book.slug) = false := by
                revert hyes
                cases library.dirExists (DirName.final book.slug) <;> simp
              rw [stageAndCommit_commit book library yaml markdown audio cover continue_on_error
                fails hroot hall hnof] at h
              dsimp only at h
              exact absurd h (by simp)

theorem C8_witness :
    (download_book bkAlpha "en" fsEmpty true true true true false false failsAudio).outcome
      = Outcome.failed (DLFailure.stepFail (Step.audioStep 0)) true
    ∧ (true = !(false : Bool)
      ∧ ((false : Bool) = true →
          raisesOut (download_book bkAlpha "en" fsEmpty true true true true false false
            failsAudio).outcome = false)
      ∧ ((false : Bool) = false →
          raisesOut (download_book bkAlpha "en" fsEmpty true true true true false false
            failsAudio).outcome = true)
      ∧ ∃ tmp, (download_book bkAlpha "en" fsEmpty true true true true false false
            failsAudio).tmpDir = some tmp
          ∧ (download_book bkAlpha "en" fsEmpty true true true true false false
              failsAudio).fs.dirExists tmp = true
          ∧ LogEntry.errorMsg bkAlpha.title ∈ (download_book bkAlpha "en" fsEmpty true true
              true true false false failsAudio).log
          ∧ LogEntry.keepTmpMsg tmp ∈ (download_book bkAlpha "en" fsEmpty true true true true
              false false failsAudio).log) :=
  ⟨by decide,
    C8_continue_on_error bkAlpha "en" fsEmpty true true true true false false failsAudio
      (DLFailure.stepFail (Step.audioStep 0)) true (by decide)⟩

/-- C10 (implicit): with all four artifact kinds disabled and no final
directory present, the executor still allocates a temp directory, still
attempts the two chapter prefetch calls, and still commits, leaving an
empty final directory that any later run treats as a completed
download and skips. -/
theorem C10_empty_commit (book : Book) (language : String) (library : FS)
    (redownload continue_on_error : Bool) (fails : Step → Bool)
    (hroot : library.rootExists = true)
    (hnof : library.dirExists (DirName.final book.slug) = false)
    (h1 : fails Step.chapterList = false)
    (h2 : fails Step.chaptersFetch = false) :
    (download_book book language library false false false false redownload continue_on_error
        fails).outcome = Outcome.committed
    ∧ (download_book book language library false false false false redownload continue_on_error
        fails).netCalls = 2
    ∧ (download_book book language library false false false false redownload continue_on_error
        fails).fs.contents (DirName.final book.slug) = some []
    ∧ (∃ i, (download_book book language library false false false false redownload
          continue_on_error fails).tmpDir = some (DirName.tmp book.slug i))
    ∧ ∀ (language2 : String) (y m a c co2 : Bool) (fails2 : Step → Bool),
        download_book book language2 (download_book book language library false false false
            false redownload continue_on_error fails).fs y m a c false co2 fails2
          = ⟨(download_book book language library false false false false redownload
              continue_on_error fails).fs, Outcome.skipped, 0, none,
              [LogEntry.skipMsg book.title]⟩ := by
  have hsl : stepList book false false false false = [Step.chapterList, Step.chaptersFetch] := by
    simp [stepList]
  have hall : (stepList book false false false false).all (fun t => !fails t) = true := by
    rw [hsl]
    simp [h1, h2]
  have hns : ¬(library.dirExists (DirName.final book.slug) = true ∧ redownload = false) := by
    rintro ⟨hc, _⟩
    rw [hnof] at hc
    exact absurd hc (by simp)
  rw [download_book_stage book language library false false false false redownload
      continue_on_error fails hroot hns,
    stageAndCommit_commit book library false false false false continue_on_error fails hroot
      hall hnof]
  dsimp only
  rw [hsl]
  have hfm : List.filterMap stepArtifact [Step.chapterList, Step.chaptersFetch]
      = ([] : List Artifact) := rfl
  rw [hfm]
  refine ⟨rfl, rfl, ?_, ⟨freshTmpIdx library book.slug, rfl⟩, ?_⟩
  · exact contents_append_self true library.dirs _ _ (dirExists_false_keys library _ hnof)
  · intro language2 y m a c co2 fails2
    refine download_book_skip book language2 _ y m a c co2 fails2 rfl ?_
    rw [dirExists_append]
    simp

theorem C10_witness :
    fsEmpty.rootExists = true
    ∧ fsEmpty.dirExists (DirName.final bkAlpha.slug) = false
    ∧ failsNone Step.chapterList = false
    ∧ failsNone Step.chaptersFetch = false
    ∧ ((download_book bkAlpha "en" fsEmpty false false false false false false
          failsNone).outcome = Outcome.committed
      ∧ (download_book bkAlpha "en" fsEmpty false false false false false false
          failsNone).netCalls = 2
      ∧ (download_book bkAlpha "en" fsEmpty false false false false false false
          failsNone).fs.contents (DirName.final bkAlpha.slug) = some []
      ∧ (∃ i, (download_book bkAlpha "en" fsEmpty false false false false false false
            failsNone).tmpDir = some (DirName.tmp bkAlpha.slug i))
      ∧ ∀ (language2 : String) (y m a c co2 : Bool) (fails2 : Step → Bool),
          download_book bkAlpha language2 (download_book bkAlpha "en" fsEmpty false false
              false false false false failsNone).fs y m a c false co2 fails2
            = ⟨(download_book bkAlpha "en" fsEmpty false false false false false false
                failsNone).fs, Outcome.skipped, 0, none, [LogEntry.skipMsg bkAlpha.title]⟩) :=
  ⟨rfl, by decide, rfl, rfl,
    C10_empty_commit bkAlpha "en" fsEmpty false false failsNone rfl (by decide) rfl rfl⟩

end Blinkist
